import Mathlib

/-!
Verification development for the crawl-state core of the LibreCrawl repository
(`src/core/link_manager.py` and `src/core/sitemap_parser.py`).

The Python code is shallowly embedded: every method of `LinkManager` becomes a
pure Lean function over an explicit `LMState`; every locked region of the
Python code is one atomic step, so a concurrent execution of workers is a
sequence of these steps.  Python exceptions (`ValueError` raised by
`urllib.parse.urlparse` on malformed IPv6 netlocs) are modelled with
`Except String`.  Python `set`s are modelled as duplicate-free lists,
`dict`s as association lists, `collections.deque` as a list used FIFO.

The `urllib.parse` functions used by the source (`urlparse`, `urljoin`) are
modelled after CPython's `Lib/urllib/parse.py` (the 3.x algorithm), including
scheme detection, netloc extraction, fragment/query splitting, params
splitting, the relative-reference resolution of `urljoin`, and the
`ValueError("Invalid IPv6 URL")` raised on a netloc containing exactly one of
the brackets `[`/`]`.  Unicode-only refinements of CPython
(`_checknetloc` NFKC check, bracketed-host validation) are not modelled; all
inputs of interest are ASCII.
-/

/-- Python `s.startswith(p)`, computed on the underlying character lists so
that proofs can evaluate it by kernel reduction. -/
def strStartsWith (s p : String) : Bool :=
  p.data.isPrefixOf s.data

/-- Python `s[:n]` (take the first `n` characters). -/
def strTake (s : String) (n : Nat) : String :=
  String.mk (s.data.take n)

/-- Python `s[n:]` (drop the first `n` characters). -/
def strDrop (s : String) (n : Nat) : String :=
  String.mk (s.data.drop n)

/-- Python `str.strip()` whitespace predicate (ASCII whitespace set). -/
def pyIsSpace (c : Char) : Bool :=
  c = ' ' || c = '\t' || c = '\n' || c = '\r' || c = '\x0b' || c = '\x0c'

/-- Python `str.strip()` on ASCII input: drop leading and trailing whitespace. -/
def pyStrip (s : String) : String :=
  String.mk (((s.data.dropWhile pyIsSpace).reverse.dropWhile pyIsSpace).reverse)

/-- The ASCII case table of Python `str.lower()`. -/
def asciiLowerPairs : List (Char × Char) :=
  [('A', 'a'), ('B', 'b'), ('C', 'c'), ('D', 'd'), ('E', 'e'), ('F', 'f'),
   ('G', 'g'), ('H', 'h'), ('I', 'i'), ('J', 'j'), ('K', 'k'), ('L', 'l'),
   ('M', 'm'), ('N', 'n'), ('O', 'o'), ('P', 'p'), ('Q', 'q'), ('R', 'r'),
   ('S', 's'), ('T', 't'), ('U', 'u'), ('V', 'v'), ('W', 'w'), ('X', 'x'),
   ('Y', 'y'), ('Z', 'z')]

/-- Python `str.lower()` on a single ASCII character. -/
def pyLowerChar (c : Char) : Char :=
  match asciiLowerPairs.find? (fun p => p.1 = c) with
  | some p => p.2
  | none => c

/-- Python `str.lower()` restricted to ASCII letters (all inputs of interest
are ASCII hostnames and schemes). -/
def pyLower (s : String) : String :=
  String.mk (s.data.map pyLowerChar)

/-- Split a character list at the first occurrence of `c`:
Python `s.split(c, 1)`.  Returns the part before `c` and, when `c` occurs,
the part after it. -/
def splitFirst (c : Char) (s : List Char) : List Char × Option (List Char) :=
  match s.dropWhile (fun x => x ≠ c) with
  | [] => (s.takeWhile (fun x => x ≠ c), none)
  | _ :: tail => (s.takeWhile (fun x => x ≠ c), some tail)

/-- Python `str.split(c)` (single-character separator), accumulator form:
`""` splits to `[""]`, separators at the ends produce empty pieces. -/
def splitCharAux (c : Char) : List Char → List Char → List String
  | [], acc => [String.mk acc.reverse]
  | x :: xs, acc =>
      if x = c then String.mk acc.reverse :: splitCharAux c xs []
      else splitCharAux c xs (x :: acc)

/-- Python `str.split(c)` for a single-character separator. -/
def splitChar (c : Char) (s : List Char) : List String :=
  splitCharAux c s []

/-- Characters CPython's `urlsplit` strips from the left of a URL:
C0 controls and space (`_WHATWG_C0_CONTROL_OR_SPACE`). -/
def isC0ControlOrSpace (c : Char) : Bool :=
  c.val ≤ 0x20

/-- CPython `urlsplit` sanitization: remove `\t`, `\r`, `\n` everywhere
(`_UNSAFE_URL_BYTES_TO_REMOVE`) after lstripping C0 controls and spaces. -/
def sanitizeUrl (s : List Char) : List Char :=
  (s.dropWhile isC0ControlOrSpace).filter
    (fun c => c ≠ '\t' && c ≠ '\r' && c ≠ '\n')

/-- CPython `scheme_chars`: ASCII letters, digits, `+`, `-`, `.`. -/
def isSchemeChar (c : Char) : Bool :=
  c.isAlpha || c.isDigit || c = '+' || c = '-' || c = '.'

/-- Result of `urllib.parse.urlsplit`. -/
structure SplitResult where
  scheme : String
  netloc : String
  path : String
  query : String
  fragment : String
deriving Repr, DecidableEq

/-- Result of `urllib.parse.urlparse` (adds the `params` component). -/
structure ParseResult where
  scheme : String
  netloc : String
  path : String
  params : String
  query : String
  fragment : String
deriving Repr, DecidableEq

/-- CPython `uses_relative`: schemes for which relative resolution applies. -/
def uses_relative : List String :=
  ["", "ftp", "http", "gopher", "nntp", "imap", "wais", "file", "https",
   "shttp", "mms", "prospero", "rtsp", "rtspu", "sftp", "svn", "svn+ssh",
   "ws", "wss"]

/-- CPython `uses_netloc`: schemes that use a network location. -/
def uses_netloc : List String :=
  ["", "ftp", "http", "gopher", "nntp", "telnet", "imap", "wais", "file",
   "mms", "https", "shttp", "snews", "prospero", "rtsp", "rtspu", "rsync",
   "svn", "svn+ssh", "sftp", "nfs", "git", "git+ssh", "ws", "wss",
   "itms-services"]

/-- CPython `uses_params`: schemes whose path may carry `;params`. -/
def uses_params : List String :=
  ["", "ftp", "hdl", "prospero", "http", "imap", "https", "shttp", "rtsp",
   "rtspu", "sip", "sips", "mms", "sftp", "tel"]

/-- Scheme detection step of CPython `urlsplit`: when the URL has the shape
`alpha scheme_chars* : rest` the scheme is split off and lowercased,
otherwise the default scheme is kept and the URL is untouched. -/
def splitScheme (url : List Char) (default : String) : String × List Char :=
  let pre := url.takeWhile (fun x => x ≠ ':')
  match url.dropWhile (fun x => x ≠ ':') with
  | [] => (default, url)
  | _ :: rest =>
      match pre with
      | [] => (default, url)
      | c0 :: cs =>
          if c0.isAlpha && cs.all isSchemeChar then
            (String.mk ((c0 :: cs).map pyLowerChar), rest)
          else (default, url)

/-- CPython `_splitnetloc`: the netloc extends to the first `/`, `?` or `#`
after the leading `//`. -/
def splitNetloc (rest : List Char) : List Char × List Char :=
  (rest.takeWhile (fun c => c ≠ '/' && c ≠ '?' && c ≠ '#'),
   rest.dropWhile (fun c => c ≠ '/' && c ≠ '?' && c ≠ '#'))

/-- CPython `urlsplit(url, scheme, allow_fragments=True)`.  Raises
(`Except.error`) exactly where CPython raises `ValueError("Invalid IPv6 URL")`:
a netloc containing `[` without `]` or `]` without `[`. -/
def pyUrlsplit (url0 : String) (default : String) : Except String SplitResult :=
  let url1 := sanitizeUrl url0.data
  let scheme := (splitScheme url1 default).1
  match (splitScheme url1 default).2 with
  | '/' :: '/' :: rest =>
      let netloc := (splitNetloc rest).1
      let url3 := (splitNetloc rest).2
      if ('[' ∈ netloc && ']' ∉ netloc) || (']' ∈ netloc && '[' ∉ netloc) then
        Except.error "Invalid IPv6 URL"
      else
        let url4 := (splitFirst '#' url3).1
        let fragment := (((splitFirst '#' url3).2).getD []).asString
        let path := (splitFirst '?' url4).1
        let query := (((splitFirst '?' url4).2).getD []).asString
        Except.ok ⟨scheme, netloc.asString, path.asString, query, fragment⟩
  | url2 =>
      let url4 := (splitFirst '#' url2).1
      let fragment := (((splitFirst '#' url2).2).getD []).asString
      let path := (splitFirst '?' url4).1
      let query := (((splitFirst '?' url4).2).getD []).asString
      Except.ok ⟨scheme, "", path.asString, query, fragment⟩

/-- Last index of `c` in `s` (CPython `str.rfind`), `none` when absent. -/
def rfindChar (c : Char) (s : List Char) : Option Nat :=
  match (s.reverse.findIdx? (fun x => x = c)) with
  | none => none
  | some k => some (s.length - 1 - k)

/-- First index of `c` in `s` at or after position `start`
(CPython `str.find(c, start)`), `none` when absent. -/
def findCharFrom (c : Char) (start : Nat) (s : List Char) : Option Nat :=
  match ((s.drop start).findIdx? (fun x => x = c)) with
  | none => none
  | some k => some (start + k)

/-- CPython `_splitparams`: split `;params` off the last path segment. -/
def splitParams (p : List Char) : List Char × List Char :=
  if '/' ∈ p then
    let base := (rfindChar '/' p).getD 0
    match findCharFrom ';' base p with
    | none => (p, [])
    | some i => (p.take i, p.drop (i + 1))
  else
    match findCharFrom ';' 0 p with
    | none => (p, [])
    | some i => (p.take i, p.drop (i + 1))

/-- CPython `urlparse(url, scheme, allow_fragments=True)`: `urlsplit` plus
params splitting for schemes in `uses_params`. -/
def pyUrlparse (url : String) (default : String) : Except String ParseResult :=
  match pyUrlsplit url default with
  | Except.error e => Except.error e
  | Except.ok r =>
      if ';' ∈ r.path.data && r.scheme ∈ uses_params then
        let (p, ps) := splitParams r.path.data
        Except.ok ⟨r.scheme, r.netloc, p.asString, ps.asString, r.query, r.fragment⟩
      else
        Except.ok ⟨r.scheme, r.netloc, r.path, "", r.query, r.fragment⟩

/-- CPython `urlunsplit`. -/
def pyUrlunsplit (scheme netloc path query fragment : String) : String :=
  let url := path
  let url :=
    if netloc ≠ "" || (url ≠ "" && strStartsWith url "//") then
      let url := if url ≠ "" && ¬ strStartsWith url "/" then "/" ++ url else url
      "//" ++ netloc ++ url
    else url
  let url := if scheme ≠ "" then scheme ++ ":" ++ url else url
  let url := if query ≠ "" then url ++ "?" ++ query else url
  if fragment ≠ "" then url ++ "#" ++ fragment else url

/-- CPython `urlunparse`. -/
def pyUrlunparse (r : ParseResult) : String :=
  let url := if r.params ≠ "" then r.path ++ ";" ++ r.params else r.path
  pyUrlunsplit r.scheme r.netloc url r.query r.fragment

/-- One step of CPython `urljoin`'s dot-segment resolution loop:
`..` pops the last resolved segment (ignoring underflow), `.` is skipped,
anything else is appended. -/
def resolveSegs (segments : List String) : List String :=
  segments.foldl
    (fun acc seg =>
      if seg = ".." then acc.dropLast
      else if seg = "." then acc
      else acc ++ [seg])
    []

/-- Helper for `filterMiddle`: filter empties from all but the final element. -/
def filterMiddleTail : List String → List String
  | [] => []
  | [x] => [x]
  | x :: xs => (if x ≠ "" then [x] else []) ++ filterMiddleTail xs

/-- CPython `urljoin`'s `segments[1:-1] = filter(None, segments[1:-1])`:
drop empty strings strictly between the first and last element. -/
def filterMiddle : List String → List String
  | [] => []
  | [x] => [x]
  | x :: xs => x :: filterMiddleTail xs

/-- CPython `urljoin(base, url)`: RFC 3986-style relative-reference
resolution, faithful to `Lib/urllib/parse.py` including early returns for
empty arguments, scheme mismatch, and absolute netlocs; raises exactly when
the internal `urlparse` calls raise. -/
def pyUrljoin (base url : String) : Except String String :=
  if base = "" then Except.ok url
  else if url = "" then Except.ok base
  else
    match pyUrlparse base "" with
    | Except.error e => Except.error e
    | Except.ok b =>
        match pyUrlparse url b.scheme with
        | Except.error e => Except.error e
        | Except.ok u =>
            if u.scheme ≠ b.scheme || u.scheme ∉ uses_relative then
              Except.ok url
            else if u.scheme ∈ uses_netloc && u.netloc ≠ "" then
              Except.ok (pyUrlunparse u)
            else
              let netloc := if u.scheme ∈ uses_netloc then b.netloc else u.netloc
              if u.path = "" && u.params = "" then
                let query := if u.query = "" then b.query else u.query
                Except.ok (pyUrlunparse
                  ⟨u.scheme, netloc, b.path, b.params, query, u.fragment⟩)
              else
                let base_parts0 := splitChar '/' b.path.data
                let base_parts :=
                  if base_parts0.getLast? ≠ some "" then base_parts0.dropLast
                  else base_parts0
                let segments :=
                  if strStartsWith u.path "/" then splitChar '/' u.path.data
                  else filterMiddle (base_parts ++ splitChar '/' u.path.data)
                let resolved := resolveSegs segments
                let resolved :=
                  if segments.getLast? = some "." || segments.getLast? = some ".." then
                    resolved ++ [""]
                  else resolved
                let joined := String.intercalate "/" resolved
                let joined := if joined = "" then "/" else joined
                Except.ok (pyUrlunparse
                  ⟨u.scheme, netloc, joined, u.params, u.query, u.fragment⟩)

/-! ## LinkManager (src/core/link_manager.py) -/

/-- One entry of `LinkManager.all_links` (the `link_data` dict built in
`collect_all_links`, lines 108-117). -/
structure LinkData where
  source_url : String
  target_url : String
  anchor_text : String
  is_internal : Bool
  target_domain : String
  target_status : Option Int
  placement : String
  link_path : String
deriving Repr, DecidableEq

/-- The mutable state of a `LinkManager` instance (`__init__`, lines 10-20).
Python sets are duplicate-free lists, the deque is a list used FIFO, and the
`source_pages` dict is an association list. -/
structure LMState where
  base_domain : String
  visited_urls : List String
  discovered_urls : List (String × Nat)
  all_discovered_urls : List String
  all_links : List LinkData
  links_set : List String
  source_pages : List (String × List String)
deriving Repr, DecidableEq

/-- Model of `LinkManager.__init__(base_domain)`: every container starts empty. -/
def init_state (base_domain : String) : LMState :=
  ⟨base_domain, [], [], [], [], [], []⟩

/-- Add to a Python `set` (idempotent). -/
def setAdd (s : List String) (x : String) : List String :=
  if x ∈ s then s else s ++ [x]

/-- Lookup in the `source_pages` dict (keys are unique, as in a Python
dict). -/
def spGet : List (String × List String) → String → Option (List String)
  | [], _ => none
  | e :: es, k => if e.1 = k then some e.2 else spGet es k

/-- Store a value in the `source_pages` dict: replace the entry for the key,
or append a new entry when the key is absent. -/
def spSet : List (String × List String) → String → List String →
    List (String × List String)
  | [], k, v => [(k, v)]
  | e :: es, k, v => if e.1 = k then (k, v) :: es else e :: spSet es k v

/-- The source-page bookkeeping shared by `extract_links` (lines 43-46) and
`collect_all_links` (lines 121-124):

    if clean_url not in self.source_pages:
        self.source_pages[clean_url] = []
    if source_url not in self.source_pages[clean_url]:
        self.source_pages[clean_url].append(source_url)
-/
def record_source (sp : List (String × List String)) (target source : String) :
    List (String × List String) :=
  let cur := (spGet sp target).getD []
  if source ∈ cur then spSet sp target cur
  else spSet sp target (cur ++ [source])

/-- URL cleaning of `extract_links` lines 32-38 and `collect_all_links`
lines 75-81: resolve against the page URL, then rebuild from the parse as
`scheme://netloc path` plus the query when present (the fragment is not
re-attached).  Propagates the `ValueError` of `urlparse`/`urljoin`. -/
def normalize_url (current_url href : String) : Except String String :=
  match pyUrljoin current_url href with
  | Except.error e => Except.error e
  | Except.ok absolute_url =>
      match pyUrlparse absolute_url "" with
      | Except.error e => Except.error e
      | Except.ok parsed =>
          let clean_url := parsed.scheme ++ "://" ++ parsed.netloc ++ parsed.path
          Except.ok (if parsed.query ≠ "" then clean_url ++ "?" ++ parsed.query
                     else clean_url)

/-- The skip test of `extract_links` line 28 on the stripped href:
empty, pure fragment, `mailto:` or `tel:`. -/
def href_skipped (href : String) : Bool :=
  href = "" || strStartsWith href "#" || strStartsWith href "mailto:" ||
    strStartsWith href "tel:"

/-- Lines 27-38 of `extract_links` as one partial function: `none` when the
href is skipped, otherwise the (fallible) cleaned URL. -/
def normalize_href (current_url href0 : String) : Option (Except String String) :=
  let href := pyStrip href0
  if href_skipped href then none
  else some (normalize_url current_url href)

/-- The body of the `for link in links` loop of `extract_links`
(lines 26-55) for a single href: skip checks, URL cleaning, then the locked
region that records the source page and admits the URL to the queue when it
is unvisited, undiscovered, not the current page, and accepted by the
`should_crawl_callback`.  An uncaught `ValueError` from URL parsing is an
`Except.error` (there is no try/except in `extract_links`). -/
def extract_link_step (st : LMState) (current_url : String) (depth : Nat)
    (should_crawl : String → Nat → Bool) (href0 : String) :
    Except String LMState :=
  match normalize_href current_url href0 with
  | none => Except.ok st
  | some (Except.error e) => Except.error e
  | some (Except.ok clean_url) =>
      let st1 := { st with source_pages := record_source st.source_pages clean_url current_url }
      if clean_url ∉ st1.visited_urls ∧ clean_url ∉ st1.all_discovered_urls ∧
          clean_url ≠ current_url then
        if should_crawl clean_url depth then
          Except.ok { st1 with
            all_discovered_urls := setAdd st1.all_discovered_urls clean_url,
            discovered_urls := st1.discovered_urls ++ [(clean_url, depth)] }
        else Except.ok st1
      else Except.ok st1

/-- Model of `LinkManager.extract_links(soup, current_url, depth, should_crawl_callback)`
over the list of href attributes of the page's `<a href>` tags.  Returns the
final state and, when a `ValueError` escaped, the exception: mutations made
before the raising link are kept and the remaining links are not processed,
exactly as in Python. -/
def extract_links (st : LMState) (hrefs : List String) (current_url : String)
    (depth : Nat) (should_crawl : String → Nat → Bool) :
    LMState × Option String :=
  match hrefs with
  | [] => (st, none)
  | h :: rest =>
      match extract_link_step st current_url depth should_crawl h with
      | Except.error e => (st, some e)
      | Except.ok st1 => extract_links st1 rest current_url depth should_crawl

/-- One `{url, status_code}` element of the `crawl_results` collection. -/
structure CrawlResult where
  url : String
  status_code : Int
deriving Repr, DecidableEq

/-- One `<a href>` node of a parsed page as consumed by `collect_all_links`:
its href attribute, its `get_text()` value, and the outputs of the DOM
analyzers `_detect_link_placement` and `_get_dom_path` on the node (the
claims under verification do not constrain the DOM walk itself, so the two
analyzer results are carried as data of the observation). -/
structure LinkObs where
  href : String
  text : String
  placement : String
  link_path : String
deriving Repr, DecidableEq

/-- The `www.`-stripping of lines 88-89 / 227-228:
`d[4:] if d.startswith('www.') else d`. -/
def stripWWW (d : String) : String :=
  if strStartsWith d "www." then strDrop d 4 else d

/-- Lines 95-100 of `collect_all_links`: first crawl result whose `url`
equals the cleaned target, if any. -/
def first_status (crawl_results : List CrawlResult) (clean_url : String) : Option Int :=
  match crawl_results.find? (fun r => r.url = clean_url) with
  | none => none
  | some r => some r.status_code

/-- The body of the `for link in links` loop of `collect_all_links`
(lines 61-135) for a single link node.  The whole URL-handling block is
inside `try: ... except Exception: continue`, so a parse failure leaves the
state unchanged and processing continues with the next link. -/
def collect_link_step (st : LMState) (source_url : String)
    (crawl_results : List CrawlResult) (l : LinkObs) : LMState :=
  let href := pyStrip l.href
  if href = "" || strStartsWith href "#" then st
  else
    let anchor_text := strTake (pyStrip l.text) 100
    if strStartsWith href "mailto:" || strStartsWith href "tel:" then st
    else
      match pyUrljoin source_url href with
      | Except.error _ => st
      | Except.ok absolute_url =>
          match pyUrlparse absolute_url "" with
          | Except.error _ => st
          | Except.ok parsed_target =>
              let clean_url :=
                let c := parsed_target.scheme ++ "://" ++ parsed_target.netloc ++
                  parsed_target.path
                if parsed_target.query ≠ "" then c ++ "?" ++ parsed_target.query else c
              let target_domain := pyLower parsed_target.netloc
              let base_domain := pyLower st.base_domain
              let target_domain_clean := stripWWW target_domain
              let base_domain_clean := stripWWW base_domain
              let is_internal := target_domain_clean ≠ "" && base_domain_clean ≠ "" &&
                target_domain_clean = base_domain_clean
              let link_data : LinkData :=
                { source_url := source_url
                  target_url := clean_url
                  anchor_text := if anchor_text = "" then "(no text)" else anchor_text
                  is_internal := is_internal
                  target_domain := parsed_target.netloc
                  target_status := first_status crawl_results clean_url
                  placement := l.placement
                  link_path := l.link_path }
              let st := { st with
                source_pages := record_source st.source_pages clean_url source_url }
              let link_key := source_url ++ "|" ++ clean_url
              if link_key ∈ st.links_set then st
              else { st with
                links_set := st.links_set ++ [link_key],
                all_links := st.all_links ++ [link_data] }

/-- Model of `LinkManager.collect_all_links(soup, source_url, crawl_results)` over the
page's link nodes.  Total: every exception of the loop body is caught. -/
def collect_all_links (st : LMState) (links : List LinkObs) (source_url : String)
    (crawl_results : List CrawlResult) : LMState :=
  links.foldl (fun s l => collect_link_step s source_url crawl_results l) st

/-- Model of `LinkManager.is_internal(url)` (lines 219-232); `Except` because the
initial `urlparse(url)` can raise `ValueError`. -/
def is_internal (base_domain url : String) : Except String Bool :=
  match pyUrlparse url "" with
  | Except.error e => Except.error e
  | Except.ok parsed_url =>
      let url_domain := pyLower parsed_url.netloc
      let base := pyLower base_domain
      let url_domain_clean := stripWWW url_domain
      let base_domain_clean := stripWWW base
      Except.ok (url_domain_clean ≠ "" && base_domain_clean ≠ "" &&
        url_domain_clean = base_domain_clean)

/-- Model of `LinkManager.add_url(url, depth)` (lines 234-239): queue the exact string
when it is in neither `all_discovered_urls` nor `visited_urls`; no
normalization, no eligibility callback, no current-page check. -/
def add_url (st : LMState) (url : String) (depth : Nat) : LMState :=
  if url ∉ st.all_discovered_urls ∧ url ∉ st.visited_urls then
    { st with
      all_discovered_urls := setAdd st.all_discovered_urls url,
      discovered_urls := st.discovered_urls ++ [(url, depth)] }
  else st

/-- Model of `LinkManager.mark_visited(url)` (lines 241-244). -/
def mark_visited (st : LMState) (url : String) : LMState :=
  { st with visited_urls := setAdd st.visited_urls url }

/-- Model of `LinkManager.get_next_url()` (lines 246-251): pop the oldest pending
pair, or `none`. -/
def get_next_url (st : LMState) : LMState × Option (String × Nat) :=
  match st.discovered_urls with
  | [] => (st, none)
  | e :: rest => ({ st with discovered_urls := rest }, some e)

/-- Model of `LinkManager.get_stats()` (lines 253-260). -/
def get_stats (st : LMState) : Nat × Nat × Nat :=
  (st.all_discovered_urls.length, st.visited_urls.length, st.discovered_urls.length)

/-- The `status_lookup` dict of `update_link_statuses` (line 265).  A dict
comprehension lets a later result for the same URL overwrite an earlier one,
so the lookup returns the status of the last matching result. -/
def status_lookup (crawl_results : List CrawlResult) (u : String) : Option Int :=
  match (crawl_results.filter (fun r => r.url = u)).getLast? with
  | none => none
  | some r => some r.status_code

/-- Model of `LinkManager.update_link_statuses(crawl_results)` (lines 262-271). -/
def update_link_statuses (st : LMState) (crawl_results : List CrawlResult) : LMState :=
  { st with
    all_links := st.all_links.map (fun link =>
      match status_lookup crawl_results link.target_url with
      | some s => { link with target_status := some s }
      | none => link) }

/-- Model of `LinkManager.get_source_pages(url)` (lines 273-276); Python's `.copy()`
is the identity on the immutable value returned here. -/
def get_source_pages (st : LMState) (url : String) : List String :=
  (spGet st.source_pages url).getD []

/-- Model of `LinkManager.reset()` (lines 278-288): every container is cleared,
`base_domain` is kept. -/
def lm_reset (st : LMState) : LMState :=
  { init_state st.base_domain with base_domain := st.base_domain }

/-! ## SitemapParser (src/core/sitemap_parser.py) -/

/-- What `_parse_sitemap` extracts from one fetched-and-parsed sitemap
document: the stripped text of each `<sitemap><loc>` entry (a sitemap index)
and of each `<url><loc>` entry.  The fetch itself, gzip decompression and
XML parsing are abstracted into an environment `String → Option SitemapDoc`;
`none` covers every case where the document contributes nothing (non-200
response, XML parse error, fetch exception), all of which return `[]` in the
source. -/
structure SitemapDoc where
  sitemaps : List String
  urls : List String
deriving Repr, DecidableEq

/-- Fuel-indexed recursion of `_parse_sitemap`: `fuel` counts the remaining
levels, i.e. `max_depth + 1 - depth`.  Nested sitemaps are resolved first,
then the document's own `<url><loc>` values are appended, exactly as in
lines 140-161. -/
def parse_sitemap_go (env : String → Option SitemapDoc) :
    Nat → String → List String
  | 0, _ => []
  | fuel + 1, url =>
      match env url with
      | none => []
      | some doc =>
          (doc.sitemaps.map (parse_sitemap_go env fuel)).flatten ++ doc.urls

/-- Model of `SitemapParser._parse_sitemap(sitemap_url, depth, max_depth)`
(lines 73-171).  The guard `if depth > max_depth: return []` makes the
recursion depth-bounded; `parse_sitemap_eq` below proves that this
definition satisfies the source's recursion equation literally. -/
def parse_sitemap (env : String → Option SitemapDoc) (url : String)
    (depth max_depth : Nat) : List String :=
  if depth > max_depth then [] else parse_sitemap_go env (max_depth + 1 - depth) url

/-! ## Frontier operation sequences

Every mutation of the frontier state (`visited_urls`, `discovered_urls`,
`all_discovered_urls`, `source_pages`) in the source happens under
`urls_lock`, so a concurrent crawl is a sequence of these operations.
`reset` is deliberately absent: the claims below are about the behaviour
between resets. -/

inductive FrontierOp where
  | extract (hrefs : List String) (current_url : String) (depth : Nat)
      (should_crawl : String → Nat → Bool)
  | add (url : String) (depth : Nat)
  | visit (url : String)
  | dequeue

/-- Effect of one frontier operation on the state. -/
def frontier_step (st : LMState) : FrontierOp → LMState
  | FrontierOp.extract hrefs cur d cb => (extract_links st hrefs cur d cb).1
  | FrontierOp.add u d => add_url st u d
  | FrontierOp.visit u => mark_visited st u
  | FrontierOp.dequeue => (get_next_url st).1

/-- The `(url, depth)` pairs an operation appends to the pending queue:
operations only ever append to the back (`dequeue` pops the front), so the
appended entries are the part of the new queue beyond the old length. -/
def opAppends (st : LMState) (op : FrontierOp) : List (String × Nat) :=
  (frontier_step st op).discovered_urls.drop st.discovered_urls.length

/-- All pairs appended to the pending queue over a whole operation
sequence, in order. -/
def traceAppends (st : LMState) : List FrontierOp → List (String × Nat)
  | [] => []
  | op :: rest => opAppends st op ++ traceAppends (frontier_step st op) rest

/-- How many pairs for the URL `u` the operation sequence appends. -/
def appendCount (u : String) (st : LMState) (ops : List FrontierOp) : Nat :=
  (traceAppends st ops).countP (fun e => e.1 == u)

/-! ## Derived notions used by the claims -/

/-- The dedup key of an edge, `f"{source_url}|{target_url}"` (line 128). -/
def link_key (l : LinkData) : String :=
  l.source_url ++ "|" ++ l.target_url

/-- The key `collect_all_links` would compute for a link observation:
`none` when the href is skipped or fails to parse. -/
def link_key_of (source_url : String) (l : LinkObs) : Option String :=
  match normalize_href source_url l.href with
  | some (Except.ok clean) => some (source_url ++ "|" ++ clean)
  | _ => none

/-- Consistency of the link-graph containers: `links_set` covers the keys of
`all_links`, and those keys are pairwise distinct.  Holds for the initial
state and is preserved by every operation. -/
def linksInv (st : LMState) : Prop :=
  (∀ l ∈ st.all_links, link_key l ∈ st.links_set) ∧
    (st.all_links.map link_key).Nodup

instance (st : LMState) : Decidable (linksInv st) := by
  unfold linksInv; infer_instance

/-- No two recorded edges share the `(source_url, target_url)` pair. -/
def edges_distinct (links : List LinkData) : Prop :=
  links.Pairwise (fun a b => ¬ (a.source_url = b.source_url ∧ a.target_url = b.target_url))

/-- A sequence of source-page observations `(source_url, target_url)`
(already normalized), applied through the shared `record_source`
bookkeeping; models any interleaving of the `urls_lock` regions of
`extract_links` and `collect_all_links` that touch `source_pages`. -/
def record_sources (sp : List (String × List String))
    (events : List (String × String)) : List (String × List String) :=
  events.foldl (fun m e => record_source m e.2 e.1) sp

/-- The source pages observed for the target `t`, in observation order,
duplicates included. -/
def sourcesOf (events : List (String × String)) (t : String) : List String :=
  (events.filter (fun e => e.2 == t)).map (fun e => e.1)

/-- Append `s` unless already present: the per-observation effect of
`record_source` on the stored source list. -/
def insertIfAbsent (xs : List String) (s : String) : List String :=
  if s ∈ xs then xs else xs ++ [s]

/-- First-seen-order deduplication: keep the first occurrence of each
element, in order. -/
def dedupFirstSeen (xs : List String) : List String :=
  xs.foldl insertIfAbsent []

/-- A sitemap environment in which the document at `u` is a sitemap index
whose single nested `<loc>` points back to `u` itself (a direct cycle) and
which also lists the page URLs `us`. -/
def selfCycleEnv (u : String) (us : List String) : String → Option SitemapDoc :=
  fun v => if v = u then some ⟨[u], us⟩ else none

/-! ## Basic lemmas -/

theorem drop_length_append {α : Type} (a b : List α) :
    (a ++ b).drop a.length = b := by
  induction a with
  | nil => simp
  | cons x xs ih => simp [ih]

theorem setAdd_of_not_mem {s : List String} {x : String} (h : x ∉ s) :
    setAdd s x = s ++ [x] := by
  simp [setAdd, h]

theorem mem_setAdd_self (s : List String) (x : String) : x ∈ setAdd s x := by
  by_cases h : x ∈ s <;> simp [setAdd, h]

theorem mem_setAdd_of_mem {s : List String} {y : String} (x : String)
    (h : y ∈ s) : y ∈ setAdd s x := by
  by_cases hx : x ∈ s <;> simp [setAdd, hx, h]

/-- Case analysis for one link of `extract_links`: a successful step either
leaves the three frontier containers unchanged (only `source_pages` may
change), or appends exactly one pair `(v, depth)` for a URL `v` that was in
neither `all_discovered_urls` nor `visited_urls` and is added to
`all_discovered_urls` in the same locked step. -/
theorem extract_link_step_cases (st : LMState) (cur : String) (d : Nat)
    (cb : String → Nat → Bool) (h : String) (st' : LMState)
    (hok : extract_link_step st cur d cb h = Except.ok st') :
    (st'.discovered_urls = st.discovered_urls ∧
     st'.all_discovered_urls = st.all_discovered_urls ∧
     st'.visited_urls = st.visited_urls) ∨
    (∃ v, v ∉ st.all_discovered_urls ∧ v ∉ st.visited_urls ∧
      st'.discovered_urls = st.discovered_urls ++ [(v, d)] ∧
      st'.all_discovered_urls = st.all_discovered_urls ++ [v] ∧
      st'.visited_urls = st.visited_urls) := by
  unfold extract_link_step at hok
  cases hnh : normalize_href cur h with
  | none =>
      rw [hnh] at hok
      cases hok
      exact Or.inl ⟨rfl, rfl, rfl⟩
  | some r =>
      cases r with
      | error e => rw [hnh] at hok; cases hok
      | ok clean =>
          rw [hnh] at hok
          dsimp only at hok
          by_cases hc : clean ∉ st.visited_urls ∧ clean ∉ st.all_discovered_urls ∧
              clean ≠ cur
          · rw [if_pos hc] at hok
            by_cases hcb : cb clean d = true
            · rw [if_pos hcb] at hok
              cases hok
              refine Or.inr ⟨clean, hc.2.1, hc.1, rfl, ?_, rfl⟩
              exact setAdd_of_not_mem hc.2.1
            · rw [if_neg hcb] at hok
              cases hok
              exact Or.inl ⟨rfl, rfl, rfl⟩
          · rw [if_neg hc] at hok
            cases hok
            exact Or.inl ⟨rfl, rfl, rfl⟩

/-- Queue/dedup behaviour of a whole `extract_links` call: the pending queue
only grows at the back by a list `T` of pairs; at most one pair for any
fixed URL `u` is appended; none is appended when `u` is already discovered
or visited; and an appended `u` is in `all_discovered_urls` afterwards.
`visited_urls` is untouched. -/
theorem extract_links_spec (u : String) (hrefs : List String) :
    ∀ (st : LMState) (cur : String) (d : Nat) (cb : String → Nat → Bool),
    ∃ T, (extract_links st hrefs cur d cb).1.discovered_urls = st.discovered_urls ++ T ∧
      (extract_links st hrefs cur d cb).1.visited_urls = st.visited_urls ∧
      T.countP (fun e => e.1 == u) ≤ 1 ∧
      (u ∈ st.all_discovered_urls →
        T.countP (fun e => e.1 == u) = 0 ∧
        u ∈ (extract_links st hrefs cur d cb).1.all_discovered_urls) ∧
      (u ∈ st.visited_urls → T.countP (fun e => e.1 == u) = 0) ∧
      (1 ≤ T.countP (fun e => e.1 == u) →
        u ∈ (extract_links st hrefs cur d cb).1.all_discovered_urls) := by
  induction hrefs with
  | nil =>
      intro st cur d cb
      refine ⟨[], by simp [extract_links], by simp [extract_links], by simp, ?_, by simp, by simp⟩
      intro hu
      exact ⟨by simp, by simpa [extract_links] using hu⟩
  | cons h rest ih =>
      intro st cur d cb
      cases hstep : extract_link_step st cur d cb h with
      | error e =>
          refine ⟨[], by simp [extract_links, hstep], by simp [extract_links, hstep],
            by simp, ?_, by simp, by simp⟩
          intro hu
          exact ⟨by simp, by simpa [extract_links, hstep] using hu⟩
      | ok st1 =>
          have hfinal : extract_links st (h :: rest) cur d cb =
              extract_links st1 rest cur d cb := by
            simp [extract_links, hstep]
          obtain ⟨T', hq, hv, hle, hall, hvis, hcnt⟩ := ih st1 cur d cb
          rw [hfinal]
          rcases extract_link_step_cases st cur d cb h st1 hstep with
            ⟨eq, ea, ev⟩ | ⟨v, hvna, hvnv, eq, ea, ev⟩
          · refine ⟨T', by rw [hq, eq], by rw [hv, ev], hle, ?_, ?_, hcnt⟩
            · intro hu; exact hall (ea ▸ hu)
            · intro hu; exact hvis (ev ▸ hu)
          · by_cases hvu : v = u
            · -- the appended pair is for `u` itself
              have humem : u ∈ st1.all_discovered_urls := by
                rw [ea, ← hvu]; simp
              obtain ⟨hz, hm⟩ := hall humem
              refine ⟨(v, d) :: T', ?_, by rw [hv, ev], ?_, ?_, ?_, ?_⟩
              · rw [hq, eq, List.append_assoc]; rfl
              · simp [List.countP_cons, hz, hvu]
              · intro hu; rw [← hvu] at hu; exact absurd hu hvna
              · intro hu; rw [← hvu] at hu; exact absurd hu hvnv
              · intro _; exact hm
            · refine ⟨(v, d) :: T', ?_, by rw [hv, ev], ?_, ?_, ?_, ?_⟩
              · rw [hq, eq, List.append_assoc]; rfl
              · simpa [List.countP_cons, hvu] using hle
              · intro hu
                have hu1 : u ∈ st1.all_discovered_urls := by
                  rw [ea]; exact List.mem_append_left _ hu
                obtain ⟨hz, hm⟩ := hall hu1
                exact ⟨by simp [List.countP_cons, hvu, hz], hm⟩
              · intro hu
                have hu1 : u ∈ st1.visited_urls := ev ▸ hu
                simp [List.countP_cons, hvu, hvis hu1]
              · intro hge
                have : 1 ≤ T'.countP (fun e => e.1 == u) := by
                  simpa [List.countP_cons, hvu] using hge
                exact hcnt this

/-- Per-operation queue/dedup behaviour: any single frontier operation
appends at most one pair for a fixed URL `u`; it appends none when `u` is
already in `all_discovered_urls` or `visited_urls` (and those memberships
are preserved); and if it appends one, `u` is in `all_discovered_urls` of
the new state. -/
theorem op_appends_spec (u : String) (st : LMState) (op : FrontierOp) :
    (opAppends st op).countP (fun e => e.1 == u) ≤ 1 ∧
    (u ∈ st.all_discovered_urls →
      (opAppends st op).countP (fun e => e.1 == u) = 0 ∧
      u ∈ (frontier_step st op).all_discovered_urls) ∧
    (u ∈ st.visited_urls →
      (opAppends st op).countP (fun e => e.1 == u) = 0 ∧
      u ∈ (frontier_step st op).visited_urls) ∧
    (1 ≤ (opAppends st op).countP (fun e => e.1 == u) →
      u ∈ (frontier_step st op).all_discovered_urls) := by
  cases op with
  | extract hrefs cur d cb =>
      obtain ⟨T, hq, hv, hle, hall, hvis, hcnt⟩ := extract_links_spec u hrefs st cur d cb
      have hT : opAppends st (FrontierOp.extract hrefs cur d cb) = T := by
        simp [opAppends, frontier_step, hq, drop_length_append]
      rw [hT]
      refine ⟨hle, hall, ?_, hcnt⟩
      intro hu
      exact ⟨hvis hu, by simpa [frontier_step, hv] using hu⟩
  | add url d =>
      by_cases hc : url ∉ st.all_discovered_urls ∧ url ∉ st.visited_urls
      · have hstep : frontier_step st (FrontierOp.add url d) =
            { st with
              all_discovered_urls := setAdd st.all_discovered_urls url,
              discovered_urls := st.discovered_urls ++ [(url, d)] } := by
          simp [frontier_step, add_url, hc]
        have hT : opAppends st (FrontierOp.add url d) = [(url, d)] := by
          simp [opAppends, hstep, drop_length_append]
        rw [hT, hstep]
        by_cases hud : url = u
        · subst hud
          refine ⟨by simp, ?_, ?_, ?_⟩
          · intro hu; exact absurd hu hc.1
          · intro hu; exact absurd hu hc.2
          · intro _; exact mem_setAdd_self _ _
        · refine ⟨by simp [hud], ?_, ?_, ?_⟩
          · intro hu; exact ⟨by simp [hud], mem_setAdd_of_mem _ hu⟩
          · intro hu; exact ⟨by simp [hud], hu⟩
          · intro hge; simp [hud] at hge
      · have hstep : frontier_step st (FrontierOp.add url d) = st := by
          simp [frontier_step, add_url, hc]
        have hT : opAppends st (FrontierOp.add url d) = [] := by
          simp [opAppends, hstep, List.drop_length]
        rw [hT, hstep]
        refine ⟨by simp, fun hu => ⟨by simp, hu⟩, fun hu => ⟨by simp, hu⟩, by simp⟩
  | visit url =>
      have hT : opAppends st (FrontierOp.visit url) = [] := by
        simp [opAppends, frontier_step, mark_visited, List.drop_length]
      rw [hT]
      refine ⟨by simp, fun hu => ⟨by simp, hu⟩,
        fun hu => ⟨by simp, ?_⟩, by simp⟩
      exact mem_setAdd_of_mem _ hu
  | dequeue =>
      cases hqs : st.discovered_urls with
      | nil =>
          have hstep : frontier_step st FrontierOp.dequeue = st := by
            simp [frontier_step, get_next_url, hqs]
          have hT : opAppends st FrontierOp.dequeue = [] := by
            simp [opAppends, hstep, List.drop_length]
          rw [hT, hstep]
          refine ⟨by simp, fun hu => ⟨by simp, hu⟩, fun hu => ⟨by simp, hu⟩, by simp⟩
      | cons e es =>
          have hstep : frontier_step st FrontierOp.dequeue =
              { st with discovered_urls := es } := by
            simp [frontier_step, get_next_url, hqs]
          have hT : opAppends st FrontierOp.dequeue = [] := by
            have : es.length ≤ st.discovered_urls.length := by
              rw [hqs]; simp
            simp [opAppends, hstep, List.drop_eq_nil_of_le this]
          rw [hT, hstep]
          refine ⟨by simp, fun hu => ⟨by simp, hu⟩, fun hu => ⟨by simp, hu⟩, by simp⟩

/-- Master invariant over arbitrary operation sequences: the number of
queue appends for a fixed URL is at most one, and zero when the URL starts
out discovered or visited. -/
theorem appendCount_spec (u : String) (ops : List FrontierOp) :
    ∀ st : LMState,
      appendCount u st ops ≤ 1 ∧
      (u ∈ st.all_discovered_urls → appendCount u st ops = 0) ∧
      (u ∈ st.visited_urls → appendCount u st ops = 0) := by
  induction ops with
  | nil => intro st; simp [appendCount, traceAppends]
  | cons op rest ih =>
      intro st
      obtain ⟨hle, hall, hvis, hcnt⟩ := op_appends_spec u st op
      obtain ⟨ihle, ihall, ihvis⟩ := ih (frontier_step st op)
      have hcount : appendCount u st (op :: rest) =
          (opAppends st op).countP (fun e => e.1 == u) +
            appendCount u (frontier_step st op) rest := by
        simp [appendCount, traceAppends, List.countP_append]
      refine ⟨?_, ?_, ?_⟩
      · rcases Nat.eq_zero_or_pos ((opAppends st op).countP (fun e => e.1 == u)) with h0 | h1
        · rw [hcount, h0]; simpa using ihle
        · have hz := ihall (hcnt h1)
          rw [hcount, hz]; omega
      · intro hu
        obtain ⟨h0, hm⟩ := hall hu
        rw [hcount, h0, ihall hm]
      · intro hu
        obtain ⟨h0, hm⟩ := hvis hu
        rw [hcount, h0, ihvis hm]

/-! ## Claims -/

/-- C1: over any sequence of admission calls (`extract_links` and `add_url`,
with `mark_visited` and `get_next_url` interleaved arbitrarily, no reset),
at most one `(url, depth)` pair is ever appended to the pending queue for a
fixed URL, and once the URL is in `all_discovered_urls` it is never appended
again — even after it has been dequeued. -/
theorem claim_C1 (st : LMState) (ops : List FrontierOp) (u : String) :
    appendCount u st ops ≤ 1 ∧
    (u ∈ st.all_discovered_urls → appendCount u st ops = 0) :=
  ⟨(appendCount_spec u ops st).1, (appendCount_spec u ops st).2.1⟩

/-- Witness for C1: a state that has already discovered `https://t.test/x`
never appends it again, under a sequence exercising `add_url`,
`extract_links` (whose `/x` normalizes to the discovered URL) and a
dequeue. -/
theorem claim_C1_witness :
    "https://t.test/x" ∈
      (⟨"t.test", [], [], ["https://t.test/x"], [], [], []⟩ : LMState).all_discovered_urls ∧
    appendCount "https://t.test/x"
      ⟨"t.test", [], [], ["https://t.test/x"], [], [], []⟩
      [FrontierOp.add "https://t.test/x" 2,
       FrontierOp.extract ["/x"] "https://t.test/a" 1 (fun _ _ => true),
       FrontierOp.dequeue] = 0 :=
  ⟨by decide, (claim_C1 _ _ _).2 (by decide)⟩

/-- C2: after `mark_visited u`, no subsequent admission call (an
`extract_links` link normalizing to `u`, or `add_url u depth`) ever appends
`u` to the pending queue, even if `u` was never previously admitted. -/
theorem claim_C2 (st : LMState) (u : String) (ops : List FrontierOp) :
    appendCount u (mark_visited st u) ops = 0 :=
  (appendCount_spec u ops (mark_visited st u)).2.2 (mem_setAdd_self _ _)

/-- C10: `add_url url depth` appends `(url, depth)` exactly when the exact
string `url` is in neither `all_discovered_urls` nor `visited_urls`; the
state equation shows that no normalization, no eligibility predicate and no
current-page exclusion is applied, so a non-canonical spelling of an
already-known URL is still enqueued. -/
theorem claim_C10 (st : LMState) (url : String) (depth : Nat) :
    (url ∉ st.all_discovered_urls ∧ url ∉ st.visited_urls →
      add_url st url depth = { st with
        all_discovered_urls := st.all_discovered_urls ++ [url],
        discovered_urls := st.discovered_urls ++ [(url, depth)] }) ∧
    (url ∈ st.all_discovered_urls ∨ url ∈ st.visited_urls →
      add_url st url depth = st) := by
  constructor
  · intro h
    rw [add_url, if_pos h, setAdd_of_not_mem h.1]
  · intro h
    have hn : ¬ (url ∉ st.all_discovered_urls ∧ url ∉ st.visited_urls) := by
      tauto
    rw [add_url, if_neg hn]

/-- Witness for C10: `https://e.test/p` is already discovered, yet the
fragment-carrying spelling `https://e.test/p#frag` is enqueued by
`add_url`, because `add_url` compares exact strings. -/
theorem claim_C10_witness :
    ("https://e.test/p#frag" ∉
        (⟨"e.test", [], [], ["https://e.test/p"], [], [], []⟩ : LMState).all_discovered_urls ∧
      "https://e.test/p#frag" ∉
        (⟨"e.test", [], [], ["https://e.test/p"], [], [], []⟩ : LMState).visited_urls) ∧
    add_url ⟨"e.test", [], [], ["https://e.test/p"], [], [], []⟩ "https://e.test/p#frag" 2 =
      { (⟨"e.test", [], [], ["https://e.test/p"], [], [], []⟩ : LMState) with
        all_discovered_urls :=
          (⟨"e.test", [], [], ["https://e.test/p"], [], [], []⟩ : LMState).all_discovered_urls ++
            ["https://e.test/p#frag"],
        discovered_urls :=
          (⟨"e.test", [], [], ["https://e.test/p"], [], [], []⟩ : LMState).discovered_urls ++
            [("https://e.test/p#frag", 2)] } :=
  ⟨by decide, (claim_C10 _ _ _).1 (by decide)⟩

/-- C9: `update_link_statuses` touches nothing but the `target_status`
fields of `all_links`: every edge whose target appears in the crawl results
gets that status (the last matching result, as the lookup dict is built by
comprehension); an edge whose target is absent keeps its previous status, so
repeated invocations only add or refresh statuses and never remove one; all
other fields of every edge, and every other component of the state, are
unchanged. -/
theorem claim_C9 (st : LMState) (crawl_results : List CrawlResult) :
    (update_link_statuses st crawl_results).base_domain = st.base_domain ∧
    (update_link_statuses st crawl_results).visited_urls = st.visited_urls ∧
    (update_link_statuses st crawl_results).discovered_urls = st.discovered_urls ∧
    (update_link_statuses st crawl_results).all_discovered_urls = st.all_discovered_urls ∧
    (update_link_statuses st crawl_results).links_set = st.links_set ∧
    (update_link_statuses st crawl_results).source_pages = st.source_pages ∧
    List.Forall₂ (fun old new =>
        new.source_url = old.source_url ∧
        new.target_url = old.target_url ∧
        new.anchor_text = old.anchor_text ∧
        new.is_internal = old.is_internal ∧
        new.target_domain = old.target_domain ∧
        new.placement = old.placement ∧
        new.link_path = old.link_path ∧
        (∀ s, status_lookup crawl_results old.target_url = some s →
          new.target_status = some s) ∧
        (status_lookup crawl_results old.target_url = none →
          new.target_status = old.target_status) ∧
        (new.target_status = none → old.target_status = none))
      st.all_links (update_link_statuses st crawl_results).all_links := by
  refine ⟨rfl, rfl, rfl, rfl, rfl, rfl, ?_⟩
  have hmap : (update_link_statuses st crawl_results).all_links =
      st.all_links.map (fun link =>
        match status_lookup crawl_results link.target_url with
        | some s => { link with target_status := some s }
        | none => link) := rfl
  rw [hmap, List.forall₂_map_right_iff, List.forall₂_same]
  intro l _
  cases hs : status_lookup crawl_results l.target_url with
  | some s =>
      refine ⟨rfl, rfl, rfl, rfl, rfl, rfl, rfl, ?_, ?_, ?_⟩
      · intro s2 hs2
        cases hs2
        rfl
      · intro h0; cases h0
      · intro h; exact Option.noConfusion h
  | none =>
      refine ⟨rfl, rfl, rfl, rfl, rfl, rfl, rfl, ?_, fun _ => rfl, fun h => h⟩
      intro s2 hs2
      cases hs2

/-- Witness for C9: one recorded edge with pending status is backfilled to
`200` from a crawl result for its target, and the rest of the state is
unchanged. -/
theorem claim_C9_witness :
    (update_link_statuses
        ⟨"t.test", [], [], [], [⟨"https://t.test/a", "https://t.test/b", "B", true,
          "t.test", none, "body", "//p"⟩], ["https://t.test/a|https://t.test/b"], []⟩
        [⟨"https://t.test/b", 200⟩]).all_links =
      [⟨"https://t.test/a", "https://t.test/b", "B", true, "t.test", some 200,
        "body", "//p"⟩] ∧
    (update_link_statuses
        ⟨"t.test", [], [], [], [⟨"https://t.test/a", "https://t.test/b", "B", true,
          "t.test", none, "body", "//p"⟩], ["https://t.test/a|https://t.test/b"], []⟩
        [⟨"https://t.test/b", 200⟩]).links_set =
      (⟨"t.test", [], [], [], [⟨"https://t.test/a", "https://t.test/b", "B", true,
        "t.test", none, "body", "//p"⟩], ["https://t.test/a|https://t.test/b"], []⟩ :
          LMState).links_set :=
  ⟨by rfl, (claim_C9 _ _).2.2.2.2.1⟩

/-- Master case analysis of one `collect_all_links` loop iteration: a link
that is skipped or fails to parse leaves the state untouched; otherwise the
computed dedup key `k` is `link_key_of src l`, the key is in `links_set`
afterwards, and the step either was a silent no-op (key already present) or
appended exactly one edge carrying that key. -/
theorem collect_link_step_master (st : LMState) (src : String)
    (res : List CrawlResult) (l : LinkObs) :
    (link_key_of src l = none ∧ collect_link_step st src res l = st) ∨
    (∃ k, link_key_of src l = some k ∧
      k ∈ (collect_link_step st src res l).links_set ∧
      ((k ∈ st.links_set ∧
        (collect_link_step st src res l).all_links = st.all_links ∧
        (collect_link_step st src res l).links_set = st.links_set) ∨
       (k ∉ st.links_set ∧ ∃ data, link_key data = k ∧
        (collect_link_step st src res l).all_links = st.all_links ++ [data] ∧
        (collect_link_step st src res l).links_set = st.links_set ++ [k]))) := by
  by_cases h1 : pyStrip l.href = ""
  · left
    constructor
    · simp [link_key_of, normalize_href, href_skipped, h1]
    · simp [collect_link_step, h1]
  · by_cases h2 : strStartsWith (pyStrip l.href) "#" = true
    · left
      constructor
      · simp [link_key_of, normalize_href, href_skipped, h2]
      · simp [collect_link_step, h2]
    · by_cases h3 : strStartsWith (pyStrip l.href) "mailto:" = true
      · left
        constructor
        · simp [link_key_of, normalize_href, href_skipped, h3]
        · simp [collect_link_step, h1, h2, h3]
      · by_cases h4 : strStartsWith (pyStrip l.href) "tel:" = true
        · left
          constructor
          · simp [link_key_of, normalize_href, href_skipped, h4]
          · simp [collect_link_step, h1, h2, h3, h4]
        · have hsk : href_skipped (pyStrip l.href) = false := by
            simp [href_skipped, h1, h2, h3, h4]
          cases hj : pyUrljoin src (pyStrip l.href) with
          | error e =>
              left
              constructor
              · simp [link_key_of, normalize_href, hsk, normalize_url, hj]
              · simp [collect_link_step, h1, h2, h3, h4, hj]
          | ok absolute_url =>
              cases hp : pyUrlparse absolute_url "" with
              | error e =>
                  left
                  constructor
                  · simp [link_key_of, normalize_href, hsk, normalize_url, hj, hp]
                  · simp [collect_link_step, h1, h2, h3, h4, hj, hp]
              | ok parsed =>
                  right
                  refine ⟨src ++ "|" ++
                    (if parsed.query ≠ "" then
                      parsed.scheme ++ "://" ++ parsed.netloc ++ parsed.path ++ "?" ++ parsed.query
                    else parsed.scheme ++ "://" ++ parsed.netloc ++ parsed.path), ?_, ?_, ?_⟩
                  · simp [link_key_of, normalize_href, hsk, normalize_url, hj, hp]
                  · by_cases hk : src ++ "|" ++
                        (if parsed.query ≠ "" then
                          parsed.scheme ++ "://" ++ parsed.netloc ++ parsed.path ++ "?" ++ parsed.query
                        else parsed.scheme ++ "://" ++ parsed.netloc ++ parsed.path) ∈ st.links_set
                    · simp [collect_link_step, h1, h2, h3, h4, hj, hp]
                      split <;> simp_all
                    · simp [collect_link_step, h1, h2, h3, h4, hj, hp]
                      split <;> simp_all
                  · by_cases hk : src ++ "|" ++
                        (if parsed.query ≠ "" then
                          parsed.scheme ++ "://" ++ parsed.netloc ++ parsed.path ++ "?" ++ parsed.query
                        else parsed.scheme ++ "://" ++ parsed.netloc ++ parsed.path) ∈ st.links_set
                    · left
                      refine ⟨hk, ?_, ?_⟩ <;>
                        simp [collect_link_step, h1, h2, h3, h4, hj, hp] <;>
                        split <;> simp_all
                    · right
                      refine ⟨hk, ⟨{
                          source_url := src
                          target_url :=
                            if parsed.query ≠ "" then
                              parsed.scheme ++ "://" ++ parsed.netloc ++ parsed.path ++ "?" ++ parsed.query
                            else parsed.scheme ++ "://" ++ parsed.netloc ++ parsed.path
                          anchor_text :=
                            if strTake (pyStrip l.text) 100 = "" then "(no text)"
                            else strTake (pyStrip l.text) 100
                          is_internal := stripWWW (pyLower parsed.netloc) ≠ "" &&
                            stripWWW (pyLower st.base_domain) ≠ "" &&
                            stripWWW (pyLower parsed.netloc) = stripWWW (pyLower st.base_domain)
                          target_domain := parsed.netloc
                          target_status := first_status res
                            (if parsed.query ≠ "" then
                              parsed.scheme ++ "://" ++ parsed.netloc ++ parsed.path ++ "?" ++ parsed.query
                            else parsed.scheme ++ "://" ++ parsed.netloc ++ parsed.path)
                          placement := l.placement
                          link_path := l.link_path }, ?_, ?_, ?_⟩⟩
                      · rfl
                      · simp [collect_link_step, h1, h2, h3, h4, hj, hp]
                        split <;> simp_all
                      · simp [collect_link_step, h1, h2, h3, h4, hj, hp]
                        split <;> simp_all

/-- One `collect_all_links` iteration preserves the link-graph invariant. -/
theorem collect_link_step_inv (st : LMState) (src : String)
    (res : List CrawlResult) (l : LinkObs) (h : linksInv st) :
    linksInv (collect_link_step st src res l) := by
  rcases collect_link_step_master st src res l with ⟨-, heq⟩ | ⟨k, -, -, hcase⟩
  · rw [heq]; exact h
  · rcases hcase with ⟨-, ha, hs⟩ | ⟨hk, data, hkey, ha, hs⟩
    · exact ⟨fun e he => hs ▸ h.1 e (ha ▸ he), ha ▸ h.2⟩
    · constructor
      · intro e he
        rw [ha] at he
        rw [hs]
        rcases List.mem_append.1 he with h1 | h1
        · exact List.mem_append_left _ (h.1 e h1)
        · simp only [List.mem_singleton] at h1
          subst h1
          rw [hkey]
          exact List.mem_append_right _ (by simp)
      · have hknot : k ∉ st.all_links.map link_key := by
          intro hmem
          obtain ⟨e, he, hke⟩ := List.mem_map.1 hmem
          exact hk (hke ▸ h.1 e he)
        rw [ha, List.map_append]
        simp [hkey, List.nodup_append, h.2, hknot]

/-- A whole `collect_all_links` call preserves the link-graph invariant. -/
theorem collect_all_links_inv (links : List LinkObs) :
    ∀ (st : LMState) (src : String) (res : List CrawlResult),
      linksInv st → linksInv (collect_all_links st links src res) := by
  induction links with
  | nil => intro st src res h; exact h
  | cons l rest ih =>
      intro st src res h
      exact ih (collect_link_step st src res l) src res
        (collect_link_step_inv st src res l h)

/-- Pairwise-distinct dedup keys give pairwise-distinct
`(source_url, target_url)` pairs. -/
theorem edges_distinct_of_nodup_keys {links : List LinkData}
    (h : (links.map link_key).Nodup) : edges_distinct links := by
  have h' : links.Pairwise (fun a b => link_key a ≠ link_key b) :=
    (List.pairwise_map).1 h
  exact h'.imp (fun hne hpair => hne (by simp [link_key, hpair.1, hpair.2]))

/-- C4: re-recording the same `(source_url, target_url)` pair is a silent
no-op on the edge list even when the later observation carries different
anchor text, placement or link path (or a different href spelling that
cleans to the same target) — the first recording's metadata wins — and
under the link-graph invariant the edge list never contains two edges with
the same `(source_url, target_url)` key. -/
theorem claim_C4 (st : LMState) (src : String) (res : List CrawlResult)
    (links : List LinkObs) (h : linksInv st) :
    linksInv (collect_all_links st links src res) ∧
    edges_distinct (collect_all_links st links src res).all_links ∧
    (∀ (l l' : LinkObs) (k : String),
      link_key_of src l = some k → link_key_of src l' = some k →
      (collect_link_step (collect_link_step st src res l) src res l').all_links =
        (collect_link_step st src res l).all_links) := by
  have hinv := collect_all_links_inv links st src res h
  refine ⟨hinv, edges_distinct_of_nodup_keys hinv.2, ?_⟩
  intro l l' k hk hk'
  rcases collect_link_step_master st src res l with ⟨hnone, -⟩ | ⟨k1, hk1, hmem1, -⟩
  · rw [hnone] at hk; cases hk
  · rw [hk1] at hk
    injection hk with he
    subst he
    rcases collect_link_step_master (collect_link_step st src res l) src res l' with
      ⟨hnone2, -⟩ | ⟨k2, hk2, -, hcase2⟩
    · rw [hnone2] at hk'; cases hk'
    · rw [hk2] at hk'
      injection hk' with he2
      subst he2
      rcases hcase2 with ⟨-, ha2, -⟩ | ⟨hnotin2, -⟩
      · exact ha2
      · exact absurd hmem1 hnotin2

/-- Witness for C4: after recording the `/b` link of page `a`, re-recording
the same pair through the different spelling `/b#frag` with different anchor
text, placement and path (both clean to target `https://shop.test/b`, hence
the same key) leaves the recorded edge list unchanged. -/
theorem claim_C4_witness :
    linksInv (init_state "shop.test") ∧
    link_key_of "https://shop.test/a" ⟨"/b", "B", "body", "//p"⟩ =
      some "https://shop.test/a|https://shop.test/b" ∧
    link_key_of "https://shop.test/a" ⟨"/b#frag", "B again", "footer", "//q"⟩ =
      some "https://shop.test/a|https://shop.test/b" ∧
    (collect_link_step (collect_link_step (init_state "shop.test")
        "https://shop.test/a" [] ⟨"/b", "B", "body", "//p"⟩)
        "https://shop.test/a" [] ⟨"/b#frag", "B again", "footer", "//q"⟩).all_links =
      (collect_link_step (init_state "shop.test")
        "https://shop.test/a" [] ⟨"/b", "B", "body", "//p"⟩).all_links :=
  ⟨by decide, by rfl, by rfl,
   (claim_C4 (init_state "shop.test") "https://shop.test/a" [] [] (by decide)).2.2
     ⟨"/b", "B", "body", "//p"⟩ ⟨"/b#frag", "B again", "footer", "//q"⟩
     "https://shop.test/a|https://shop.test/b" (by rfl) (by rfl)⟩

theorem spGet_spSet_self (sp : List (String × List String)) (k : String)
    (v : List String) : spGet (spSet sp k v) k = some v := by
  induction sp with
  | nil => simp [spGet, spSet]
  | cons e es ih =>
      by_cases he : e.1 = k
      · simp [spGet, spSet, he]
      · simp [spGet, spSet, he, ih]

theorem spGet_spSet_other (sp : List (String × List String)) (k k' : String)
    (v : List String) (h : k' ≠ k) : spGet (spSet sp k v) k' = spGet sp k' := by
  induction sp with
  | nil =>
      simp [spGet, spSet]
      exact fun he => absurd he.symm h
  | cons e es ih =>
      by_cases he : e.1 = k
      · have hkk : ¬ (k = k') := fun hk => h hk.symm
        simp [spGet, spSet, he, hkk]
      · by_cases he' : e.1 = k'
        · simp [spGet, spSet, he, he', h]
        · simp [spGet, spSet, he, he', ih]

/-- The shared source-page bookkeeping is `insertIfAbsent` on the stored
list for the target, leaving every other target untouched. -/
theorem record_source_get (sp : List (String × List String)) (t s t' : String) :
    spGet (record_source sp t s) t' =
      if t' = t then some (insertIfAbsent ((spGet sp t).getD []) s)
      else spGet sp t' := by
  by_cases ht : t' = t
  · subst ht
    unfold record_source insertIfAbsent
    by_cases hs : s ∈ (spGet sp t').getD []
    · simp [hs, spGet_spSet_self]
    · simp [hs, spGet_spSet_self]
  · unfold record_source
    by_cases hs : s ∈ (spGet sp t).getD []
    · simp [hs, spGet_spSet_other sp t t' _ ht, ht]
    · simp [hs, spGet_spSet_other sp t t' _ ht, ht]

/-- Folding any observation sequence through `record_source` stores, for
each target, the fold of `insertIfAbsent` over that target's observed
sources. -/
theorem record_sources_get (t : String) (events : List (String × String)) :
    ∀ sp, (spGet (record_sources sp events) t).getD [] =
      (sourcesOf events t).foldl insertIfAbsent ((spGet sp t).getD []) := by
  induction events with
  | nil => intro sp; simp [record_sources, sourcesOf]
  | cons e rest ih =>
      intro sp
      have hstep : record_sources sp (e :: rest) =
          record_sources (record_source sp e.2 e.1) rest := rfl
      by_cases ht : e.2 = t
      · have hsrc : sourcesOf (e :: rest) t = e.1 :: sourcesOf rest t := by
          simp [sourcesOf, ht]
        rw [hstep, ih, hsrc]
        have : spGet (record_source sp e.2 e.1) t =
            some (insertIfAbsent ((spGet sp t).getD []) e.1) := by
          rw [record_source_get, ht, if_pos rfl]
        rw [this]
        rfl
      · have hsrc : sourcesOf (e :: rest) t = sourcesOf rest t := by
          simp [sourcesOf, ht]
        rw [hstep, ih, hsrc]
        have : spGet (record_source sp e.2 e.1) t = spGet sp t := by
          rw [record_source_get, if_neg (fun h => ht h.symm)]
        rw [this]

theorem mem_insertIfAbsent (xs : List String) (x s : String) :
    s ∈ insertIfAbsent xs x ↔ s ∈ xs ∨ s = x := by
  unfold insertIfAbsent
  by_cases hx : x ∈ xs
  · simp [hx]
    intro hs
    rw [hs]; exact hx
  · simp [hx]

theorem nodup_insertIfAbsent (xs : List String) (x : String) (h : xs.Nodup) :
    (insertIfAbsent xs x).Nodup := by
  unfold insertIfAbsent
  by_cases hx : x ∈ xs
  · simpa [hx] using h
  · simp [hx, List.nodup_append, h]

theorem foldl_insertIfAbsent_nodup (xs : List String) :
    ∀ init : List String, init.Nodup → (xs.foldl insertIfAbsent init).Nodup := by
  induction xs with
  | nil => intro init h; exact h
  | cons x rest ih =>
      intro init h
      exact ih (insertIfAbsent init x) (nodup_insertIfAbsent init x h)

theorem mem_foldl_insertIfAbsent (xs : List String) :
    ∀ (init : List String) (s : String),
      s ∈ xs.foldl insertIfAbsent init ↔ s ∈ init ∨ s ∈ xs := by
  induction xs with
  | nil => intro init s; simp
  | cons x rest ih =>
      intro init s
      rw [List.foldl_cons, ih, mem_insertIfAbsent]
      simp
      tauto

/-- C5: after any sequence of source-page observations starting from the
empty map, `get_source_pages` of a target is exactly the first-seen-order
deduplication of that target's observed sources: each distinct source page
appears exactly once, in first-seen order, and a never-seen target yields
the empty list. -/
theorem claim_C5 (events : List (String × String)) (t : String) :
    get_source_pages { init_state "" with source_pages := record_sources [] events } t =
      dedupFirstSeen (sourcesOf events t) ∧
    (get_source_pages { init_state "" with source_pages := record_sources [] events } t).Nodup ∧
    (∀ s, s ∈ get_source_pages { init_state "" with source_pages := record_sources [] events } t ↔
      s ∈ sourcesOf events t) := by
  have h1 : get_source_pages { init_state "" with source_pages := record_sources [] events } t =
      dedupFirstSeen (sourcesOf events t) := by
    unfold get_source_pages dedupFirstSeen
    have := record_sources_get t events []
    simpa [spGet] using this
  refine ⟨h1, ?_, ?_⟩
  · rw [h1]
    exact foldl_insertIfAbsent_nodup _ _ (by simp)
  · intro s
    rw [h1]
    unfold dedupFirstSeen
    rw [mem_foldl_insertIfAbsent]
    simp

/-- Witness for C5: with the same href seen twice on page A and once on
page B, and in a second target never observed, the stored lists are the
deduplicated first-seen source lists. -/
theorem claim_C5_witness :
    get_source_pages { init_state "" with source_pages :=
        (record_sources [] [("https://pA", "https://t1"), ("https://pB", "https://t1"),
          ("https://pA", "https://t1")]) } "https://t1" =
      dedupFirstSeen (sourcesOf [("https://pA", "https://t1"), ("https://pB", "https://t1"),
        ("https://pA", "https://t1")] "https://t1") ∧
    get_source_pages { init_state "" with source_pages :=
        (record_sources [] [("https://pA", "https://t1"), ("https://pB", "https://t1"),
          ("https://pA", "https://t1")]) } "https://t1" = ["https://pA", "https://pB"] ∧
    get_source_pages { init_state "" with source_pages :=
        (record_sources [] [("https://pA", "https://t1"), ("https://pB", "https://t1"),
          ("https://pA", "https://t1")]) } "https://t2" = [] :=
  ⟨(claim_C5 [("https://pA", "https://t1"), ("https://pB", "https://t1"),
      ("https://pA", "https://t1")] "https://t1").1, by decide, by decide⟩

/-- The function `parse_sitemap` satisfies the source's recursion equation literally:
`return []` past `max_depth`, otherwise nested sitemaps resolved at
`depth + 1` followed by the document's own URLs. -/
theorem parse_sitemap_eq (env : String → Option SitemapDoc) (url : String)
    (d m : Nat) :
    parse_sitemap env url d m =
      if d > m then []
      else
        match env url with
        | none => []
        | some doc =>
            (doc.sitemaps.map (fun loc => parse_sitemap env loc (d + 1) m)).flatten ++
              doc.urls := by
  unfold parse_sitemap
  by_cases h : d > m
  · simp [h]
  · rw [if_neg h, if_neg h]
    have hf : m + 1 - d = (m - d) + 1 := by omega
    rw [hf]
    have hgo : parse_sitemap_go env ((m - d) + 1) url =
        match env url with
        | none => []
        | some doc =>
            (doc.sitemaps.map (parse_sitemap_go env (m - d))).flatten ++ doc.urls := rfl
    rw [hgo]
    cases env url with
    | none => rfl
    | some doc =>
        dsimp only
        have hfun : parse_sitemap_go env (m - d) =
            fun loc => if d + 1 > m then [] else parse_sitemap_go env (m + 1 - (d + 1)) loc := by
          funext loc
          by_cases h2 : d + 1 > m
          · have h0 : m - d = 0 := by omega
            rw [h0, if_pos h2]
            rfl
          · have h1 : m + 1 - (d + 1) = m - d := by omega
            rw [if_neg h2, h1]
        rw [hfun]

theorem flatten_replicate_comm (n : Nat) (x : List String) :
    x ++ (List.replicate n x).flatten = (List.replicate n x).flatten ++ x := by
  induction n with
  | zero => simp
  | succ k ih =>
      have h2 : (List.replicate (k + 1) x).flatten =
          x ++ (List.replicate k x).flatten := by
        rw [List.replicate_succ, List.flatten_cons]
      rw [h2, List.append_assoc, ← ih]

theorem flatten_replicate_succ (n : Nat) (x : List String) :
    (List.replicate (n + 1) x).flatten = (List.replicate n x).flatten ++ x := by
  rw [List.replicate_succ, List.flatten_cons, flatten_replicate_comm]

/-- On the direct self-cycle environment, the fuel-indexed recursion
collects `n` copies of the document's URL list. -/
theorem parse_sitemap_go_cycle (u : String) (us : List String) (n : Nat) :
    parse_sitemap_go (selfCycleEnv u us) n u = (List.replicate n us).flatten := by
  induction n with
  | zero => rfl
  | succ k ih =>
      have : parse_sitemap_go (selfCycleEnv u us) (k + 1) u =
          parse_sitemap_go (selfCycleEnv u us) k u ++ us := by
        simp [parse_sitemap_go, selfCycleEnv]
      rw [this, ih, flatten_replicate_succ]

/-- C7: `_parse_sitemap` refuses to recurse past `max_depth`, returning the
empty list beyond the limit instead of raising, and on a sitemap index whose
nested `<loc>` points back to itself the recursion terminates after
`max_depth` levels, returning the URLs collected before the cycle was cut
off (one copy of the document's URL list per level). -/
theorem claim_C7 :
    (∀ (env : String → Option SitemapDoc) (url : String) (d m : Nat),
      d > m → parse_sitemap env url d m = []) ∧
    (∀ (u : String) (us : List String) (m : Nat),
      parse_sitemap (selfCycleEnv u us) u 1 m = (List.replicate m us).flatten) := by
  constructor
  · intro env url d m h
    simp [parse_sitemap, h]
  · intro u us m
    by_cases h : 1 > m
    · have h0 : m = 0 := by omega
      subst h0
      rfl
    · unfold parse_sitemap
      rw [if_neg h]
      have hm : m + 1 - 1 = m := by omega
      rw [hm, parse_sitemap_go_cycle]

/-- Witness for C7: with `max_depth = 3`, a call at depth 5 yields `[]`, and
the self-cycling sitemap at depth 1 yields its page URL three times and
terminates. -/
theorem claim_C7_witness :
    5 > 3 ∧
    parse_sitemap (selfCycleEnv "https://s.test/sitemap.xml" ["https://s.test/p1"])
      "https://s.test/sitemap.xml" 5 3 = [] ∧
    parse_sitemap (selfCycleEnv "https://s.test/sitemap.xml" ["https://s.test/p1"])
      "https://s.test/sitemap.xml" 1 3 =
      (List.replicate 3 ["https://s.test/p1"]).flatten :=
  ⟨by decide, claim_C7.1 _ _ _ _ (by decide), claim_C7.2 _ _ _⟩

/-- C6: domain classification lower-cases both hostnames and strips one
leading `www.` from each, so the `www.` spelling and the bare spelling of a
host classify identically; a URL is internal exactly when both cleaned
hostnames are non-empty and equal; and with an empty base domain every URL
is external. -/
theorem claim_C6 :
    (is_internal "example.com" "https://www.example.com/x" = Except.ok true ∧
     is_internal "example.com" "https://example.com/x" = Except.ok true) ∧
    (∀ (base url : String) (p : ParseResult), pyUrlparse url "" = Except.ok p →
      is_internal base url = Except.ok
        (stripWWW (pyLower p.netloc) ≠ "" && stripWWW (pyLower base) ≠ "" &&
          stripWWW (pyLower p.netloc) = stripWWW (pyLower base))) ∧
    (∀ (base url : String) (p : ParseResult), pyUrlparse url "" = Except.ok p →
      is_internal base url = Except.ok true →
      stripWWW (pyLower p.netloc) ≠ "" ∧ stripWWW (pyLower base) ≠ "" ∧
        stripWWW (pyLower p.netloc) = stripWWW (pyLower base)) ∧
    (∀ (url : String) (r : Bool), is_internal "" url = Except.ok r → r = false) := by
  refine ⟨⟨by rfl, by rfl⟩, ?_, ?_, ?_⟩
  · intro base url p hp
    unfold is_internal
    rw [hp]
  · intro base url p hp htrue
    unfold is_internal at htrue
    rw [hp] at htrue
    dsimp only at htrue
    injection htrue with h
    simp at h
    tauto
  · intro url r h
    unfold is_internal at h
    cases hp : pyUrlparse url "" with
    | error e => rw [hp] at h; cases h
    | ok p =>
        rw [hp] at h
        dsimp only at h
        injection h with h2
        rw [← h2]
        have hb : stripWWW (pyLower "") = "" := rfl
        simp [hb]

/-- Witness for C6: applying the hostname characterization to the parse of
`https://www.example.com/x` against base domain `example.com`. -/
theorem claim_C6_witness :
    pyUrlparse "https://www.example.com/x" "" =
      Except.ok ⟨"https", "www.example.com", "/x", "", "", ""⟩ ∧
    is_internal "example.com" "https://www.example.com/x" = Except.ok
      (stripWWW (pyLower "www.example.com") ≠ "" && stripWWW (pyLower "example.com") ≠ "" &&
        stripWWW (pyLower "www.example.com") = stripWWW (pyLower "example.com")) :=
  ⟨by rfl, claim_C6.2.1 "example.com" "https://www.example.com/x" _ (by rfl)⟩

/-- A link whose URL cleaning raises inside `collect_all_links` contributes
nothing: its `link_key_of` is `none`. -/
theorem link_key_of_none_of_error (src : String) (l : LinkObs) (e : String)
    (h : normalize_url src (pyStrip l.href) = Except.error e) :
    link_key_of src l = none := by
  unfold link_key_of normalize_href
  by_cases hs : href_skipped (pyStrip l.href) = true
  · simp [hs]
  · simp [hs, h]

/-- C3 (amended): in `collect_all_links`, an href whose URL fails to parse is
rejected locally — the batch result is the same as if the link were absent —
while `extract_links` performs no such recovery: a parse failure propagates
out as the exception, the state keeps only the mutations made before the
failing link, and the remaining links of the batch are not processed. -/
theorem claim_C3_amended :
    (∀ (st : LMState) (src : String) (res : List CrawlResult)
        (xs ys : List LinkObs) (l : LinkObs) (e : String),
      normalize_url src (pyStrip l.href) = Except.error e →
      collect_all_links st (xs ++ l :: ys) src res =
        collect_all_links st (xs ++ ys) src res) ∧
    (∀ (st : LMState) (cur : String) (d : Nat) (cb : String → Nat → Bool)
        (h : String) (rest : List String) (e : String),
      extract_link_step st cur d cb h = Except.error e →
      extract_links st (h :: rest) cur d cb = (st, some e)) := by
  constructor
  · intro st src res xs ys l e h
    have hid : ∀ st' : LMState, collect_link_step st' src res l = st' := by
      intro st'
      rcases collect_link_step_master st' src res l with ⟨-, heq⟩ | ⟨k, hk, -, -⟩
      · exact heq
      · rw [link_key_of_none_of_error src l e h] at hk
        cases hk
    unfold collect_all_links
    rw [List.foldl_append, List.foldl_append, List.foldl_cons, hid]
  · intro st cur d cb h rest e hstep
    simp [extract_links, hstep]

/-- Counterexample for C3 as stated: the malformed href `http://[bad` (an
invalid IPv6 netloc) makes `urlparse` raise a `ValueError` that escapes
`extract_links` — the exception propagates out and the following link `/ok`
of the same batch, which alone would have been admitted, is never
processed. -/
theorem claim_C3_counterexample :
    (extract_links (init_state "site.test") ["http://[bad", "/ok"]
      "https://site.test/a" 1 (fun _ _ => true)).2 = some "Invalid IPv6 URL" ∧
    (extract_links (init_state "site.test") ["http://[bad", "/ok"]
      "https://site.test/a" 1 (fun _ _ => true)).1.discovered_urls = [] ∧
    (extract_links (init_state "site.test") ["/ok"]
      "https://site.test/a" 1 (fun _ _ => true)).1.discovered_urls =
      [("https://site.test/ok", 1)] :=
  ⟨by rfl, by rfl, by rfl⟩

/-- Witness for C3 (amended): the malformed link contributes nothing to
`collect_all_links` and the batch continues, while the same href makes
`extract_links` return the exception with the rest of the batch dropped. -/
theorem claim_C3_witness :
    normalize_url "https://site.test/a" (pyStrip "http://[bad") =
      Except.error "Invalid IPv6 URL" ∧
    collect_all_links (init_state "site.test")
        ([] ++ ⟨"http://[bad", "x", "body", "//p"⟩ :: [⟨"/ok", "OK", "body", "//p"⟩])
        "https://site.test/a" [] =
      collect_all_links (init_state "site.test") ([] ++ [⟨"/ok", "OK", "body", "//p"⟩])
        "https://site.test/a" [] ∧
    extract_link_step (init_state "site.test") "https://site.test/a" 1
        (fun _ _ => true) "http://[bad" = Except.error "Invalid IPv6 URL" ∧
    extract_links (init_state "site.test") ("http://[bad" :: ["/ok"])
        "https://site.test/a" 1 (fun _ _ => true) =
      (init_state "site.test", some "Invalid IPv6 URL") :=
  ⟨by rfl,
   claim_C3_amended.1 (init_state "site.test") "https://site.test/a" [] []
     [⟨"/ok", "OK", "body", "//p"⟩] ⟨"http://[bad", "x", "body", "//p"⟩
     "Invalid IPv6 URL" (by rfl),
   by rfl,
   claim_C3_amended.2 (init_state "site.test") "https://site.test/a" 1
     (fun _ _ => true) "http://[bad" ["/ok"] "Invalid IPv6 URL" (by rfl)⟩

theorem pyLowerChar_eq_hash (c : Char) (h : pyLowerChar c = '#') : c = '#' := by
  unfold pyLowerChar at h
  cases hf : asciiLowerPairs.find? (fun p => p.1 = c) with
  | none => rw [hf] at h; exact h
  | some p =>
      rw [hf] at h
      have hp : p ∈ asciiLowerPairs := List.mem_of_find?_eq_some hf
      have hall : ∀ q ∈ asciiLowerPairs, q.2 ≠ '#' := by decide
      exact absurd h (hall p hp)

theorem splitScheme_fst_no_hash (s : List Char) :
    '#' ∉ ((splitScheme s "").1).data := by
  unfold splitScheme
  cases hd : s.dropWhile (fun x => x ≠ ':') with
  | nil => simp
  | cons x rest =>
      cases hp : s.takeWhile (fun x => x ≠ ':') with
      | nil => simp
      | cons c0 cs =>
          dsimp only
          by_cases hcond : (c0.isAlpha && cs.all isSchemeChar) = true
          · rw [if_pos hcond]
            intro hmem
            simp only [String.mk] at hmem
            obtain ⟨c, hc, hlow⟩ := List.mem_map.1 hmem
            have hch : c = '#' := pyLowerChar_eq_hash c hlow
            subst hch
            rcases List.mem_cons.1 hc with h0 | h0
            · rw [← h0] at hcond
              simp at hcond
            · have := (List.all_eq_true.1 (Bool.and_elim_right hcond)) _ h0
              exact absurd this (by decide)
          · rw [if_neg hcond]
            simp

theorem splitFirst_fst (c : Char) (s : List Char) :
    (splitFirst c s).1 = s.takeWhile (fun x => x ≠ c) := by
  unfold splitFirst
  cases s.dropWhile (fun x => x ≠ c) <;> rfl

theorem mem_splitFirst_snd (c : Char) (s : List Char) (a : Char)
    (h : a ∈ ((splitFirst c s).2).getD []) : a ∈ s := by
  unfold splitFirst at h
  cases hd : s.dropWhile (fun x => x ≠ c) with
  | nil => rw [hd] at h; simp at h
  | cons x tail =>
      rw [hd] at h
      dsimp only [Option.getD] at h
      have hsub : List.Sublist (x :: tail) s := hd ▸ List.dropWhile_sublist _
      exact hsub.subset (List.mem_cons_of_mem x h)

theorem no_hash_splitFirst_fst (s : List Char) :
    '#' ∉ (splitFirst '#' s).1 := by
  rw [splitFirst_fst]
  intro hmem
  have := List.mem_takeWhile_imp hmem
  simp at this

/-- The parse components of `urlsplit` never contain a `#`: the fragment is
split off before the path and query, the netloc stops at the first
`/`, `?` or `#`, and a parsed scheme consists of scheme characters. -/
theorem pyUrlsplit_no_hash (url : String) (r : SplitResult)
    (h : pyUrlsplit url "" = Except.ok r) :
    '#' ∉ r.scheme.data ∧ '#' ∉ r.netloc.data ∧ '#' ∉ r.path.data ∧
      '#' ∉ r.query.data := by
  have hscheme : '#' ∉ ((splitScheme (sanitizeUrl url.data) "").1).data :=
    splitScheme_fst_no_hash _
  unfold pyUrlsplit at h
  dsimp only at h
  split at h
  · rename_i rest heq
    split at h
    · cases h
    · rename_i hbr
      injection h with h5
      subst h5
      refine ⟨hscheme, ?_, ?_, ?_⟩
      · intro hmem
        simp only [List.asString] at hmem
        have := List.mem_takeWhile_imp (p := fun c => c ≠ '/' && c ≠ '?' && c ≠ '#')
          (by simpa [splitNetloc] using hmem)
        simp at this
      · intro hmem
        simp only [List.asString] at hmem
        rw [splitFirst_fst] at hmem
        have h4 : '#' ∈ (splitFirst '#' (splitNetloc rest).2).1 :=
          (List.takeWhile_sublist _).subset hmem
        exact no_hash_splitFirst_fst _ h4
      · intro hmem
        simp only [List.asString] at hmem
        have h4 : '#' ∈ (splitFirst '#' (splitNetloc rest).2).1 :=
          mem_splitFirst_snd '?' _ '#' hmem
        exact no_hash_splitFirst_fst _ h4
  · rename_i url2 heq
    injection h with h5
    subst h5
    refine ⟨hscheme, by simp, ?_, ?_⟩
    · intro hmem
      simp only [List.asString] at hmem
      rw [splitFirst_fst] at hmem
      have h4 : '#' ∈ (splitFirst '#' ((splitScheme (sanitizeUrl url.data) "").2)).1 :=
        (List.takeWhile_sublist _).subset hmem
      exact no_hash_splitFirst_fst _ h4
    · intro hmem
      simp only [List.asString] at hmem
      have h4 : '#' ∈ (splitFirst '#' ((splitScheme (sanitizeUrl url.data) "").2)).1 :=
        mem_splitFirst_snd '?' _ '#' hmem
      exact no_hash_splitFirst_fst _ h4

theorem splitParams_fst_subset (p : List Char) : (splitParams p).1 ⊆ p := by
  unfold splitParams
  by_cases h : '/' ∈ p
  · rw [if_pos h]
    dsimp only
    cases hf : findCharFrom ';' ((rfindChar '/' p).getD 0) p with
    | none => exact fun a ha => ha
    | some i => exact List.take_subset i p
  · rw [if_neg h]
    cases hf : findCharFrom ';' 0 p with
    | none => exact fun a ha => ha
    | some i => exact List.take_subset i p

/-- The `#`-freeness of `urlsplit` components carries over to `urlparse`,
whose params splitting only takes a prefix of the path. -/
theorem pyUrlparse_no_hash (url : String) (p : ParseResult)
    (h : pyUrlparse url "" = Except.ok p) :
    '#' ∉ p.scheme.data ∧ '#' ∉ p.netloc.data ∧ '#' ∉ p.path.data ∧
      '#' ∉ p.query.data := by
  unfold pyUrlparse at h
  cases hs : pyUrlsplit url "" with
  | error e => rw [hs] at h; cases h
  | ok r =>
      rw [hs] at h
      obtain ⟨h1, h2, h3, h4⟩ := pyUrlsplit_no_hash url r hs
      dsimp only at h
      by_cases hc : (';' ∈ r.path.data && decide (r.scheme ∈ uses_params)) = true
      · rw [if_pos hc] at h
        injection h with h5
        subst h5
        refine ⟨h1, h2, ?_, h4⟩
        intro hmem
        simp only [List.asString] at hmem
        exact h3 (splitParams_fst_subset _ hmem)
      · rw [if_neg hc] at h
        injection h with h5
        subst h5
        exact ⟨h1, h2, h3, h4⟩

/-- C8: link extraction skips exactly the stripped hrefs that are empty,
pure-fragment, `mailto:` or `tel:`; every other href is resolved against the
current page URL with `urljoin`; the cleaned URL is rebuilt from the parse
of the resolved URL as `scheme://netloc path` with the query appended
verbatim when non-empty and the fragment dropped — so the result never
contains a `#`. -/
theorem claim_C8 :
    (∀ cur href : String, href_skipped (pyStrip href) = true →
      normalize_href cur href = none) ∧
    (∀ cur href : String, href_skipped (pyStrip href) = false →
      normalize_href cur href = some (normalize_url cur (pyStrip href))) ∧
    (∀ (cur href joined : String) (p : ParseResult),
      pyUrljoin cur (pyStrip href) = Except.ok joined →
      pyUrlparse joined "" = Except.ok p →
      normalize_url cur (pyStrip href) = Except.ok
        (if p.query ≠ "" then
          p.scheme ++ "://" ++ p.netloc ++ p.path ++ "?" ++ p.query
        else p.scheme ++ "://" ++ p.netloc ++ p.path)) ∧
    (∀ (cur href clean : String),
      normalize_href cur href = some (Except.ok clean) → '#' ∉ clean.data) := by
  refine ⟨?_, ?_, ?_, ?_⟩
  · intro cur href h
    simp [normalize_href, h]
  · intro cur href h
    simp [normalize_href, h]
  · intro cur href joined p hj hp
    unfold normalize_url
    rw [hj]
    dsimp only
    rw [hp]
  · intro cur href clean h
    unfold normalize_href at h
    by_cases hs : href_skipped (pyStrip href) = true
    · simp [hs] at h
    · simp only [hs, Bool.false_eq_true, if_false] at h
      injection h with h2
      unfold normalize_url at h2
      cases hj : pyUrljoin cur (pyStrip href) with
      | error e => rw [hj] at h2; cases h2
      | ok joined =>
          rw [hj] at h2
          dsimp only at h2
          cases hp : pyUrlparse joined "" with
          | error e => rw [hp] at h2; cases h2
          | ok p =>
              rw [hp] at h2
              dsimp only at h2
              injection h2 with h3
              obtain ⟨n1, n2, n3, n4⟩ := pyUrlparse_no_hash joined p hp
              have l1 : '#' ∉ "://".data := by decide
              have l2 : '#' ∉ "?".data := by decide
              rw [← h3]
              by_cases hq : p.query ≠ ""
              · rw [if_pos hq]
                intro hmem
                simp only [String.data_append, List.mem_append] at hmem
                tauto
              · rw [if_neg hq]
                intro hmem
                simp only [String.data_append, List.mem_append] at hmem
                tauto

/-- Witness for C8: the pure-fragment href ` #top` is skipped; the href
`/x?q=1#f` on page `https://a.test/p` resolves to
`https://a.test/x?q=1#f`, whose cleaned form keeps the query `q=1` verbatim
and drops the fragment `f`, containing no `#`. -/
theorem claim_C8_witness :
    href_skipped (pyStrip " #top") = true ∧
    normalize_href "https://a.test/p" " #top" = none ∧
    href_skipped (pyStrip "/x?q=1#f") = false ∧
    normalize_href "https://a.test/p" "/x?q=1#f" =
      some (normalize_url "https://a.test/p" (pyStrip "/x?q=1#f")) ∧
    pyUrljoin "https://a.test/p" (pyStrip "/x?q=1#f") =
      Except.ok "https://a.test/x?q=1#f" ∧
    pyUrlparse "https://a.test/x?q=1#f" "" =
      Except.ok ⟨"https", "a.test", "/x", "", "q=1", "f"⟩ ∧
    normalize_url "https://a.test/p" (pyStrip "/x?q=1#f") = Except.ok
      (if ("q=1" : String) ≠ "" then
        "https" ++ "://" ++ "a.test" ++ "/x" ++ "?" ++ "q=1"
      else "https" ++ "://" ++ "a.test" ++ "/x") ∧
    '#' ∉ "https://a.test/x?q=1".data :=
  ⟨by rfl, claim_C8.1 "https://a.test/p" " #top" (by rfl), by rfl,
   claim_C8.2.1 "https://a.test/p" "/x?q=1#f" (by rfl), by rfl, by rfl,
   claim_C8.2.2.1 "https://a.test/p" "/x?q=1#f" "https://a.test/x?q=1#f"
     ⟨"https", "a.test", "/x", "", "q=1", "f"⟩ (by rfl) (by rfl),
   claim_C8.2.2.2 "https://a.test/p" "/x?q=1#f" "https://a.test/x?q=1" (by rfl)⟩

/-- Sanity checks of the `urljoin` model against CPython behaviour. -/
theorem pyUrljoin_checks :
    pyUrljoin "https://shop.test/a" "/b" = Except.ok "https://shop.test/b" ∧
    pyUrljoin "https://shop.test/a" "https://other.test/c" =
      Except.ok "https://other.test/c" ∧
    pyUrljoin "https://site.test/a" "http://[bad" = Except.error "Invalid IPv6 URL" ∧
    pyUrljoin "https://a.test/d/e" "x/y?q=1#f" = Except.ok "https://a.test/d/x/y?q=1#f" ∧
    pyUrljoin "https://a.test/d/e/" "../up" = Except.ok "https://a.test/d/up" :=
  ⟨by rfl, by rfl, by rfl, by rfl, by rfl⟩
